import Mathlib

/-!
Verification development for the portfolio-analytics pipeline
(`src/portfolio_analytics.py`): locale normalization of column names and
numeric formats, date parsing, holdings aggregation, and return/drawdown
metrics.  Python floats are modelled as rationals (ℚ), pandas missing
values (NaN) as `Option`, and a raised exception as `Except.error`.
-/

/-- A loaded column: pandas dtype `object` is modelled as `textual`
(string cells), an already-numeric dtype as `numeric` (missing cells are
`none`), and a datetime column (result of `pd.to_datetime`) as `dates`. -/
inductive Column where
  | numeric (vals : List (Option ℚ))
  | textual (cells : List String)
  | dates (vals : List (Nat × Nat × Nat))
deriving DecidableEq, Repr

/-- A data frame: labelled columns in order. -/
abbrev Df : Type := List (String × Column)

/-- The literal `column_map` dictionary of `load_and_clean_data`
(source lines 37-47). -/
def column_map : List (String × String) :=
  [("Datum", "Date"), ("Date", "Date"),
   ("Tijd", "Time"), ("Time", "Time"),
   ("Product", "Product"),
   ("ISIN", "ISIN"),
   ("Aantal", "Quantity"), ("Quantity", "Quantity"),
   ("Koers", "Price"), ("Price", "Price"),
   ("Lokale waarde", "Local Value"), ("Local value", "Local Value"),
   ("Waarde", "Value"), ("Value", "Value"),
   ("Totaal", "Total"), ("Total", "Total")]

/-- `df.rename(columns=column_map)` on a single label: a mapped label is
replaced by its canonical name, an unmapped label is kept. -/
def renameLabel (l : String) : String :=
  (column_map.lookup l).getD l

/-- `df = df.rename(columns=column_map)` (source line 48): relabel every
column, keeping the column data and order. -/
def renameColumns (df : Df) : Df :=
  df.map (fun lc => (renameLabel lc.1, lc.2))

/-- All characters of the list are decimal digits and the list is
nonempty; then its value as a base-10 natural number. -/
def digitsVal : List Char → Option Nat
  | [] => none
  | cs =>
    if cs.all Char.isDigit then
      some (cs.foldl (fun a c => 10 * a + (c.toNat - 48)) 0)
    else none

/-- Split a character list at every dot, keeping the (possibly empty)
pieces between dots. -/
def splitAtDots : List Char → List (List Char)
  | [] => [[]]
  | c :: cs =>
    if c = '.' then [] :: splitAtDots cs
    else
      match splitAtDots cs with
      | [] => [[c]]
      | p :: ps => (c :: p) :: ps

/-- Value of an unsigned decimal string: either plain digits, or
`intpart.fracpart` with at most one dot and at least one digit in total.
Models the grammar `pd.to_numeric` accepts on plain decimal notation
(source line 56); anything else fails. -/
def parseUnsigned (cs : List Char) : Option ℚ :=
  match splitAtDots cs with
  | [intp] => (digitsVal intp).map (fun n => (n : ℚ))
  | [intp, frac] =>
    if intp = [] ∧ frac = [] then none
    else if intp.all Char.isDigit ∧ frac.all Char.isDigit then
      some (mkRat ((intp.foldl (fun a c => 10 * a + (c.toNat - 48)) 0
        * 10 ^ frac.length + frac.foldl (fun a c => 10 * a + (c.toNat - 48)) 0 : Nat))
        (10 ^ frac.length))
    else none
  | _ => none

/-- Signed decimal parsing: optional leading sign, then `parseUnsigned`.
Models `pd.to_numeric(..., errors=coerce)` on a single cell: a parse
failure yields `none` (pandas NaN) instead of an exception. -/
def parseNumeric (cs : List Char) : Option ℚ :=
  match cs with
  | '-' :: rest => (parseUnsigned rest).map (fun q => -q)
  | '+' :: rest => parseUnsigned rest
  | _ => parseUnsigned cs

/-- `str.replace(".", "", regex=False)` on a cell: remove every dot. -/
def stripDots (cs : List Char) : List Char :=
  cs.filter (fun c => c ≠ '.')

/-- `str.replace(",", ".", regex=False)` on a cell: each comma becomes a
dot. -/
def commaToDot (cs : List Char) : List Char :=
  cs.map (fun c => if c = ',' then '.' else c)

/-- Full per-cell numeric normalization of source lines 55-56: remove all
dots, turn commas into dots, then coerce to a number (`none` = NaN on
failure). -/
def normalizeCell (s : String) : Option ℚ :=
  parseNumeric (commaToDot (stripDots s.data))

/-- Per-column numeric conversion of source lines 54-56: only a column of
dtype `object` (modelled `textual`) is rewritten; an already numeric
column does not enter the `if` branch and is untouched.  A `dates` column
cannot occur among the numeric columns before date parsing and is kept
unchanged as well. -/
def normalizeColumn (c : Column) : Column :=
  match c with
  | Column.textual cells => Column.numeric (cells.map normalizeCell)
  | Column.numeric v => Column.numeric v
  | Column.dates v => Column.dates v

/-- The literal `cols_to_fix` list (source line 51). -/
def cols_to_fix : List String :=
  ["Quantity", "Price", "Local Value", "Value", "Total"]

/-- The loop of source lines 52-56: every column whose label is in
`cols_to_fix` is numerically normalized, all other columns are kept. -/
def fixNumericColumns (df : Df) : Df :=
  df.map (fun lc =>
    if lc.1 ∈ cols_to_fix then (lc.1, normalizeColumn lc.2) else lc)

/-- Claim C1: for every designated numeric column present with textual
values, normalization strips all dots, turns each comma into a dot, and
parses the result (an unparseable cell becomes a missing value, never an
exception); the cell "1.234,56" becomes 1234.56 and "abc" becomes
missing. -/
theorem C1_numeric_normalization :
    (∀ (df : Df) (l : String) (cells : List String),
      (l, Column.textual cells) ∈ df → l ∈ cols_to_fix →
      (l, Column.numeric (cells.map normalizeCell)) ∈ fixNumericColumns df)
    ∧ (∀ s : String, normalizeCell s = parseNumeric (commaToDot (stripDots s.data)))
    ∧ normalizeCell "1.234,56" = some (mkRat 123456 100)
    ∧ normalizeCell "abc" = none := by
  refine ⟨?_, fun s => rfl, by decide, by decide⟩
  intro df l cells hmem hfix
  have h := List.mem_map_of_mem
    (fun lc => if lc.1 ∈ cols_to_fix then (lc.1, normalizeColumn lc.2) else lc) hmem
  simpa [fixNumericColumns, normalizeColumn, hfix] using h

/-- Witness for C1 at a concrete one-column frame. -/
theorem C1_numeric_normalization_witness :
    ("Quantity", Column.numeric [some (mkRat 123456 100), none]) ∈
      fixNumericColumns [("Quantity", Column.textual ["1.234,56", "abc"])] := by
  have h := C1_numeric_normalization.1
    [("Quantity", Column.textual ["1.234,56", "abc"])] "Quantity" ["1.234,56", "abc"]
    (by decide) (by decide)
  simpa using h

/-- Claim C8: numeric normalization skips a column that already holds
numeric values (the dtype guard), hence is idempotent. -/
theorem C8_normalization_idempotent :
    (∀ v, normalizeColumn (Column.numeric v) = Column.numeric v)
    ∧ (∀ c, normalizeColumn (normalizeColumn c) = normalizeColumn c) := by
  refine ⟨fun v => rfl, fun c => ?_⟩
  cases c <;> rfl

/-- Claim C9: column renaming is a pure relabeling: the frame keeps its
length, every column keeps its data with its label pushed through the
map, a mapped label becomes its canonical name, and an unmapped label is
unchanged. -/
theorem C9_rename_pure_relabeling :
    (∀ df : Df, (renameColumns df).length = df.length)
    ∧ (∀ (df : Df) (i : Nat),
        (renameColumns df)[i]? = (df[i]?).map (fun lc => (renameLabel lc.1, lc.2)))
    ∧ (∀ l c, (l, c) ∈ column_map → renameLabel l = c)
    ∧ (∀ l, l ∉ column_map.map Prod.fst → renameLabel l = l) := by
  refine ⟨fun df => List.length_map df _, fun df i => List.getElem?_map _ df i, ?_, ?_⟩
  · intro l c h
    fin_cases h <;> rfl
  · intro l h
    have hnone : column_map.lookup l = none := by
      rw [List.lookup_eq_none_iff]
      intro p hp
      simp only [bne_iff_ne, ne_eq]
      intro hlp
      exact h (hlp ▸ List.mem_map_of_mem Prod.fst hp)
    simp [renameLabel, hnone]

/-- Witness for C9 at concrete labels and a concrete frame. -/
theorem C9_rename_pure_relabeling_witness :
    renameLabel "Aantal" = "Quantity" ∧ renameLabel "Foo" = "Foo" ∧
    (renameColumns [("Aantal", Column.textual [])])[0]? =
      some ("Quantity", Column.textual []) := by
  refine ⟨C9_rename_pure_relabeling.2.2.1 "Aantal" "Quantity" (by decide), ?_, ?_⟩
  · exact C9_rename_pure_relabeling.2.2.2 "Foo" (by decide)
  · rw [C9_rename_pure_relabeling.2.1 [("Aantal", Column.textual [])] 0]
    decide

/-- Claim C10: dot removal is position-blind, so the plain dot-decimal
cell "10.5" normalizes to 105 and not to 10.5 (which is 21/2 = mkRat
105 10). -/
theorem C10_dots_removed_everywhere :
    normalizeCell "10.5" = some 105 ∧ normalizeCell "10.5" ≠ some (mkRat 105 10) := by
  constructor
  · decide
  · decide

/-- A canonical transaction row as consumed by `get_portfolio_snapshot`:
the Product, ISIN and Quantity fields, each possibly missing (NaN). -/
structure TxRow where
  product : Option String
  isin : Option String
  quantity : Option ℚ
deriving DecidableEq, Repr

/-- The rows that take part in the grouping of source lines 69-72:
`dropna(subset=[ISIN, Quantity])` keeps rows with both fields present,
and pandas `groupby` (default `dropna=True`) further drops rows whose
Product group key is missing.  Each retained row becomes a
(Product, ISIN, Quantity) triple. -/
def tradeRows (df : List TxRow) : List (String × String × ℚ) :=
  df.filterMap (fun r =>
    match r.product, r.isin, r.quantity with
    | some p, some i, some q => some (p, i, q)
    | _, _, _ => none)

/-- The (Product, ISIN) group key of a retained row. -/
def rowKey (t : String × String × ℚ) : String × String :=
  (t.1, t.2.1)

/-- `groupby([Product, ISIN])[Quantity].sum()` for one group key: the sum
of Quantity over the retained rows in that group. -/
def sumQuantity (df : List TxRow) (k : String × String) : ℚ :=
  (((tradeRows df).filter (fun t => rowKey t = k)).map (fun t => t.2.2)).sum

/-- The distinct group keys occurring among the retained rows. -/
def groupKeys (df : List TxRow) : List (String × String) :=
  ((tradeRows df).map rowKey).dedup

/-- `get_portfolio_snapshot` (source lines 64-75): group the retained
rows by (Product, ISIN), sum Quantity per group, and keep exactly the
groups with a strictly positive sum.  The incidental row order of the
pandas result is not part of the contract; distinct keys in first
occurrence order stand in for it. -/
def get_portfolio_snapshot (df : List TxRow) : List (String × String × ℚ) :=
  (groupKeys df).filterMap (fun k =>
    if 0 < sumQuantity df k then some (k.1, k.2, sumQuantity df k) else none)

/-- A group key with a nonzero quantity sum occurs among the retained
rows. -/
theorem mem_groupKeys_of_sum_ne_zero {df : List TxRow} {k : String × String}
    (h : sumQuantity df k ≠ 0) : k ∈ groupKeys df := by
  by_contra hk
  apply h
  unfold sumQuantity
  have hfil : (tradeRows df).filter (fun t => rowKey t = k) = [] := by
    rw [List.filter_eq_nil_iff]
    intro t ht
    simp only [decide_eq_true_eq]
    intro hkey
    exact hk (List.mem_dedup.2 (hkey ▸ List.mem_map_of_mem rowKey ht))
  rw [hfil]
  rfl

/-- Membership in the snapshot is exactly: the quantity is the group sum
and that sum is strictly positive. -/
theorem mem_snapshot_iff (df : List TxRow) (p i : String) (q : ℚ) :
    (p, i, q) ∈ get_portfolio_snapshot df ↔ sumQuantity df (p, i) = q ∧ 0 < q := by
  unfold get_portfolio_snapshot
  rw [List.mem_filterMap]
  constructor
  · rintro ⟨k, hk, heq⟩
    by_cases hpos : 0 < sumQuantity df k
    · rw [if_pos hpos] at heq
      obtain ⟨h1, h2, h3⟩ : k.1 = p ∧ k.2 = i ∧ sumQuantity df k = q := by
        simpa [Prod.ext_iff] using heq
      have hkpi : k = (p, i) := by
        cases k
        simp_all
      rw [hkpi] at h3 hpos
      exact ⟨h3, h3 ▸ hpos⟩
    · rw [if_neg hpos] at heq
      exact absurd heq (by simp)
  · rintro ⟨hsum, hq⟩
    refine ⟨(p, i), mem_groupKeys_of_sum_ne_zero (by rw [hsum]; exact ne_of_gt hq), ?_⟩
    rw [hsum, if_pos hq]

/-- Claim C3: the aggregator discards rows missing ISIN or Quantity,
sums Quantity per (Product, ISIN) group, and keeps exactly the strictly
positive sums; quantities +10, +5, -3 for one key give the single entry
with quantity 12, and a key whose sum is not positive gives no entry. -/
theorem C3_snapshot_aggregation :
    (∀ (df : List TxRow) (r : TxRow), r.isin = none ∨ r.quantity = none →
      tradeRows (r :: df) = tradeRows df)
    ∧ (∀ (df : List TxRow) (p i : String) (q : ℚ),
        (p, i, q) ∈ get_portfolio_snapshot df ↔ sumQuantity df (p, i) = q ∧ 0 < q)
    ∧ get_portfolio_snapshot
        [⟨some "AAPL", some "X", some 10⟩, ⟨some "AAPL", some "X", some 5⟩,
         ⟨some "AAPL", some "X", some (-3)⟩] = [("AAPL", "X", 12)]
    ∧ get_portfolio_snapshot
        [⟨some "AAPL", some "X", some 10⟩, ⟨some "AAPL", some "X", some (-10)⟩] = [] := by
  refine ⟨?_, mem_snapshot_iff, by with_unfolding_all decide, by with_unfolding_all decide⟩
  intro df r h
  unfold tradeRows
  rw [List.filterMap_cons]
  rcases h with h | h <;>
    rcases hp : r.product with _ | p <;>
    rcases hi : r.isin with _ | i <;>
    rcases hq : r.quantity with _ | q <;>
    simp_all

/-- Witness for C3 at a concrete transaction list. -/
theorem C3_snapshot_aggregation_witness :
    tradeRows [TxRow.mk (some "AAPL") none (some 4), TxRow.mk (some "AAPL") (some "X") (some 4)]
      = tradeRows [TxRow.mk (some "AAPL") (some "X") (some 4)]
    ∧ (("AAPL", "X", (4 : ℚ)) ∈
        get_portfolio_snapshot [TxRow.mk (some "AAPL") (some "X") (some 4)] ↔
        sumQuantity [TxRow.mk (some "AAPL") (some "X") (some 4)] ("AAPL", "X") = 4 ∧ (0 : ℚ) < 4) :=
  ⟨C3_snapshot_aggregation.1 [TxRow.mk (some "AAPL") (some "X") (some 4)]
      (TxRow.mk (some "AAPL") none (some 4)) (Or.inl rfl),
   C3_snapshot_aggregation.2.1 [TxRow.mk (some "AAPL") (some "X") (some 4)] "AAPL" "X" 4⟩

/-- The quantity sum of every group is invariant under permuting the
input rows. -/
theorem sumQuantity_perm {l₁ l₂ : List TxRow} (h : l₁.Perm l₂) (k : String × String) :
    sumQuantity l₁ k = sumQuantity l₂ k := by
  unfold sumQuantity tradeRows
  exact List.Perm.sum_eq ((((h.filterMap _).filter _).map _))

/-- Claim C7: permuting the rows of the input table leaves the snapshot
the same as a set of (Product, ISIN, Quantity) triples. -/
theorem C7_snapshot_permutation_invariant :
    ∀ l₁ l₂ : List TxRow, l₁.Perm l₂ →
      ∀ e : String × String × ℚ,
        e ∈ get_portfolio_snapshot l₁ ↔ e ∈ get_portfolio_snapshot l₂ := by
  intro l₁ l₂ h e
  obtain ⟨p, i, q⟩ := e
  rw [mem_snapshot_iff, mem_snapshot_iff, sumQuantity_perm h]

/-- Witness for C7 at a concrete permutation: the +10 / -3 / +5 ordering
gives the same snapshot membership as +10 / +5 / -3. -/
theorem C7_snapshot_permutation_invariant_witness :
    (("AAPL", "X", (12 : ℚ)) ∈ get_portfolio_snapshot
        [⟨some "AAPL", some "X", some 10⟩, ⟨some "AAPL", some "X", some (-3)⟩,
         ⟨some "AAPL", some "X", some 5⟩]) ↔
    (("AAPL", "X", (12 : ℚ)) ∈ get_portfolio_snapshot
        [⟨some "AAPL", some "X", some 10⟩, ⟨some "AAPL", some "X", some 5⟩,
         ⟨some "AAPL", some "X", some (-3)⟩]) :=
  C7_snapshot_permutation_invariant _ _
    (List.Perm.cons _ (List.Perm.swap _ _ _)) ("AAPL", "X", 12)

/-- `market_data.pct_change().dropna()` (source line 97) on a price
series: the return `p[i] / p[i-1] - 1` for every i from 1 on; the first
point contributes no return (pandas puts NaN there and `dropna` removes
it). -/
def pctChange : List ℚ → List ℚ
  | a :: b :: rest => (b / a - 1) :: pctChange (b :: rest)
  | _ => []

/-- Running product with accumulator, the core of pandas `cumprod`. -/
def cumprodAux (acc : ℚ) : List ℚ → List ℚ
  | [] => []
  | x :: xs => (acc * x) :: cumprodAux (acc * x) xs

/-- `Series.cumprod()`: element i is the product of the first i+1
elements. -/
def cumprod (l : List ℚ) : List ℚ :=
  cumprodAux 1 l

/-- Running maximum with accumulator, the core of pandas `cummax`. -/
def cummaxAux (acc : ℚ) : List ℚ → List ℚ
  | [] => []
  | x :: xs => max acc x :: cummaxAux (max acc x) xs

/-- `Series.cummax()`: element i is the maximum of the first i+1
elements. -/
def cummax : List ℚ → List ℚ
  | [] => []
  | x :: xs => x :: cummaxAux x xs

/-- `cumulative_returns = (1 + returns).cumprod()` (source line 98). -/
def cumulativeReturns (prices : List ℚ) : List ℚ :=
  cumprod ((pctChange prices).map (fun r => 1 + r))

/-- `drawdown = cumulative_returns / rolling_max - 1` (source lines
101-102), elementwise against the running maximum. -/
def drawdownSeries (prices : List ℚ) : List ℚ :=
  List.zipWith (fun c m => c / m - 1)
    (cumulativeReturns prices) (cummax (cumulativeReturns prices))

/-- `Series.min()` on a clean series: the minimum element, `none` for an
empty series (where pandas yields NaN). -/
def seriesMin : List ℚ → Option ℚ
  | [] => none
  | x :: xs => some (xs.foldl min x)

/-- `calculate_metrics` (source lines 93-105): the cumulative return
series and the max drawdown. -/
def calculate_metrics (prices : List ℚ) : List ℚ × Option ℚ :=
  (cumulativeReturns prices, seriesMin (drawdownSeries prices))

/-- Index formula for the return series. -/
theorem pctChange_getElem? (p : List ℚ) : ∀ i : Nat,
    (pctChange p)[i]? = (p[i]?).bind (fun a => (p[i + 1]?).map (fun b => b / a - 1)) := by
  induction p with
  | nil => intro i; simp [pctChange]
  | cons a t ih =>
    cases t with
    | nil => intro i; cases i <;> simp [pctChange]
    | cons b rest =>
      intro i
      cases i with
      | zero => simp [pctChange]
      | succ n => simpa [pctChange] using ih n

/-- The return series is one shorter than the price series. -/
theorem pctChange_length : ∀ p : List ℚ, (pctChange p).length = p.length - 1 := by
  intro p
  induction p with
  | nil => rfl
  | cons a t ih =>
    cases t with
    | nil => rfl
    | cons b rest => simpa [pctChange] using ih

/-- Index formula for the running product. -/
theorem cumprodAux_getElem? : ∀ (l : List ℚ) (acc : ℚ) (i : Nat),
    (cumprodAux acc l)[i]? =
      if i < l.length then some (acc * (l.take (i + 1)).prod) else none := by
  intro l
  induction l with
  | nil => intro acc i; simp [cumprodAux]
  | cons x xs ih =>
    intro acc i
    cases i with
    | zero => simp [cumprodAux]
    | succ n => simpa [cumprodAux, mul_assoc] using ih (acc * x) n

/-- The running product has the same length as its input. -/
theorem cumprodAux_length : ∀ (l : List ℚ) (acc : ℚ),
    (cumprodAux acc l).length = l.length := by
  intro l
  induction l with
  | nil => intro acc; rfl
  | cons x xs ih => intro acc; simpa [cumprodAux] using ih (acc * x)

/-- Index formula for the running maximum with accumulator. -/
theorem cummaxAux_getElem? : ∀ (xs : List ℚ) (acc : ℚ) (i : Nat),
    (cummaxAux acc xs)[i]? =
      if i < xs.length then some ((xs.take (i + 1)).foldl max acc) else none := by
  intro xs
  induction xs with
  | nil => intro acc i; simp [cummaxAux]
  | cons x t ih =>
    intro acc i
    cases i with
    | zero => simp [cummaxAux]
    | succ n => simpa [cummaxAux] using ih (max acc x) n

/-- The running maximum at index i is the maximum of the first i+1
elements. -/
theorem cummax_getElem? (c : List ℚ) (i : Nat) (h : i < c.length) :
    (cummax c)[i]? = (c.take (i + 1)).max? := by
  cases c with
  | nil => simp at h
  | cons x t =>
    cases i with
    | zero => simp [cummax, List.max?_cons']
    | succ n =>
      have hn : n < t.length := by simpa using h
      simp only [cummax, List.getElem?_cons_succ, List.take_succ_cons, List.max?_cons']
      rw [cummaxAux_getElem? t x n, if_pos hn]

/-- The seed of a min-fold bounds the result from above. -/
theorem foldl_min_le_init : ∀ (l : List ℚ) (acc : ℚ), l.foldl min acc ≤ acc := by
  intro l
  induction l with
  | nil => intro acc; exact le_refl acc
  | cons x xs ih => intro acc; exact le_trans (ih (min acc x)) (min_le_left acc x)

/-- A min-fold is bounded by every list element. -/
theorem foldl_min_le_mem : ∀ (l : List ℚ) (acc y : ℚ), y ∈ l → l.foldl min acc ≤ y := by
  intro l
  induction l with
  | nil => intro acc y hy; simp at hy
  | cons x xs ih =>
    intro acc y hy
    rcases List.mem_cons.mp hy with rfl | hy
    · exact le_trans (foldl_min_le_init xs (min acc y)) (min_le_right acc y)
    · exact ih (min acc x) y hy

/-- A min-fold returns its seed or some list element. -/
theorem foldl_min_mem : ∀ (l : List ℚ) (acc : ℚ),
    l.foldl min acc = acc ∨ l.foldl min acc ∈ l := by
  intro l
  induction l with
  | nil => intro acc; exact Or.inl rfl
  | cons x xs ih =>
    intro acc
    rcases ih (min acc x) with h | h
    · rcases min_choice acc x with hm | hm
      · exact Or.inl (by rw [List.foldl_cons, h, hm])
      · exact Or.inr (by rw [List.foldl_cons, h, hm]; exact List.mem_cons_self x xs)
    · exact Or.inr (List.mem_cons_of_mem x h)

/-- `seriesMin` returns a member of the list that bounds every element
from below: it is the minimum over positions. -/
theorem seriesMin_spec : ∀ (l : List ℚ) (x : ℚ),
    seriesMin l = some x → x ∈ l ∧ ∀ y ∈ l, x ≤ y := by
  intro l x h
  cases l with
  | nil => simp [seriesMin] at h
  | cons a t =>
    have hx : t.foldl min a = x := by simpa [seriesMin] using h
    constructor
    · rcases foldl_min_mem t a with h1 | h1
      · rw [← hx, h1]; exact List.mem_cons_self a t
      · rw [← hx]; exact List.mem_cons_of_mem a h1
    · intro y hy
      rcases List.mem_cons.mp hy with rfl | hy
      · rw [← hx]; exact foldl_min_le_init t y
      · rw [← hx]; exact foldl_min_le_mem t a y hy

/-- On a positive price series every growth factor 1 + return is
positive. -/
theorem pctChange_one_add_pos : ∀ p : List ℚ, (∀ x ∈ p, 0 < x) →
    ∀ r ∈ pctChange p, 0 < 1 + r := by
  intro p
  induction p with
  | nil => intro _ r hr; simp [pctChange] at hr
  | cons a t ih =>
    cases t with
    | nil => intro _ r hr; simp [pctChange] at hr
    | cons b rest =>
      intro hp r hr
      rcases List.mem_cons.mp hr with rfl | hr
      · have : (1 : ℚ) + (b / a - 1) = b / a := by ring
        rw [this]
        exact div_pos (hp b (List.mem_cons_of_mem a (List.mem_cons_self b rest)))
          (hp a (List.mem_cons_self a (b :: rest)))
      · exact ih (fun x hx => hp x (List.mem_cons_of_mem a hx)) r hr

/-- A running product of positive factors from a positive seed stays
positive. -/
theorem cumprodAux_all_pos : ∀ (l : List ℚ) (acc : ℚ), 0 < acc →
    (∀ x ∈ l, 0 < x) → ∀ y ∈ cumprodAux acc l, 0 < y := by
  intro l
  induction l with
  | nil => intro acc _ _ y hy; simp [cumprodAux] at hy
  | cons x xs ih =>
    intro acc hacc hl y hy
    have hx : 0 < x := hl x (List.mem_cons_self x xs)
    rcases List.mem_cons.mp hy with rfl | hy
    · exact mul_pos hacc hx
    · exact ih (acc * x) (mul_pos hacc hx)
        (fun z hz => hl z (List.mem_cons_of_mem x hz)) y hy

/-- On a positive price series every cumulative return is positive. -/
theorem cumulativeReturns_all_pos (p : List ℚ) (hp : ∀ x ∈ p, 0 < x) :
    ∀ y ∈ cumulativeReturns p, 0 < y := by
  intro y hy
  refine cumprodAux_all_pos _ 1 one_pos ?_ y hy
  intro x hx
  obtain ⟨r, hr, rfl⟩ := List.mem_map.mp hx
  exact pctChange_one_add_pos p hp r hr

/-- Against the running maximum seeded with a positive value, every
drawdown entry of a positive series is nonpositive. -/
theorem zip_cummaxAux_nonpos : ∀ (c : List ℚ) (acc : ℚ), 0 < acc →
    (∀ y ∈ c, 0 < y) →
    ∀ d ∈ List.zipWith (fun x m => x / m - 1) c (cummaxAux acc c), d ≤ 0 := by
  intro c
  induction c with
  | nil => intro acc _ _ d hd; simp [cummaxAux] at hd
  | cons x xs ih =>
    intro acc hacc hc d hd
    have hx : 0 < x := hc x (List.mem_cons_self x xs)
    rw [cummaxAux, List.zipWith_cons_cons] at hd
    rcases List.mem_cons.mp hd with rfl | hd
    · refine sub_nonpos.mpr ((div_le_one ?_).mpr (le_max_right acc x))
      exact lt_of_lt_of_le hx (le_max_right acc x)
    · exact ih (max acc x) (lt_of_lt_of_le hacc (le_max_left acc x))
        (fun z hz => hc z (List.mem_cons_of_mem x hz)) d hd

/-- A chain from a positive seed through factors at least 1 is produced
by the running product. -/
theorem cumprodAux_chain : ∀ (l : List ℚ) (acc : ℚ), 0 < acc →
    (∀ x ∈ l, 1 ≤ x) → List.Chain (· ≤ ·) acc (cumprodAux acc l) := by
  intro l
  induction l with
  | nil => intro acc _ _; exact List.Chain.nil
  | cons x xs ih =>
    intro acc hacc hl
    have hx : 1 ≤ x := hl x (List.mem_cons_self x xs)
    refine List.Chain.cons (le_mul_of_one_le_right (le_of_lt hacc) hx) ?_
    exact ih (acc * x) (mul_pos hacc (lt_of_lt_of_le one_pos hx))
      (fun z hz => hl z (List.mem_cons_of_mem x hz))

/-- The running maximum of a nondecreasing tail from a dominated seed is
the tail itself. -/
theorem cummaxAux_eq_of_chain : ∀ (t : List ℚ) (acc : ℚ),
    List.Chain (· ≤ ·) acc t → cummaxAux acc t = t := by
  intro t
  induction t with
  | nil => intro acc _; rfl
  | cons x xs ih =>
    intro acc h
    obtain ⟨h1, h2⟩ := List.chain_cons.mp h
    rw [cummaxAux, max_eq_right h1, ih x h2]

/-- The running maximum of a nondecreasing series is the series itself. -/
theorem cummax_eq_of_chain : ∀ c : List ℚ,
    c.Chain' (· ≤ ·) → cummax c = c := by
  intro c h
  cases c with
  | nil => rfl
  | cons x t =>
    have ht : List.Chain (· ≤ ·) x t := h
    rw [cummax, cummaxAux_eq_of_chain t x ht]

/-- A chain starting anywhere yields a chain along the list itself. -/
theorem chain_imp_chain_from_head {a : ℚ} {l : List ℚ}
    (h : List.Chain (· ≤ ·) a l) : l.Chain' (· ≤ ·) := by
  cases l with
  | nil => trivial
  | cons b t =>
    show List.Chain (· ≤ ·) b t
    exact (List.chain_cons.mp h).2

/-- The elementwise drawdown of a positive series against itself is a
list of zeros. -/
theorem zipWith_self_drawdown_zero : ∀ c : List ℚ, (∀ x ∈ c, 0 < x) →
    List.zipWith (fun x m => x / m - 1) c c = List.replicate c.length 0 := by
  intro c
  induction c with
  | nil => intro _; rfl
  | cons x xs ih =>
    intro hc
    have hx : x / x - 1 = 0 := by
      rw [div_self (ne_of_gt (hc x (List.mem_cons_self x xs)))]
      ring
    simp only [List.zipWith_cons_cons, List.length_cons, List.replicate_succ, hx]
    rw [ih (fun z hz => hc z (List.mem_cons_of_mem x hz))]

/-- The minimum of a nonempty all-zero series is zero. -/
theorem seriesMin_replicate_zero : ∀ n : Nat, 1 ≤ n →
    seriesMin (List.replicate n (0 : ℚ)) = some 0 := by
  have hfold : ∀ m : Nat, (List.replicate m (0 : ℚ)).foldl min 0 = 0 := by
    intro m
    induction m with
    | zero => rfl
    | succ k ih => simpa [List.replicate_succ] using ih
  intro n hn
  cases n with
  | zero => omega
  | succ m => simp [seriesMin, List.replicate_succ, hfold m]

/-- On a positive price series the growth factors of a strictly
increasing series are at least 1. -/
theorem pctChange_one_le_factor : ∀ p : List ℚ, (∀ x ∈ p, 0 < x) →
    p.Chain' (· < ·) → ∀ r ∈ pctChange p, 1 ≤ 1 + r := by
  intro p
  induction p with
  | nil => intro _ _ r hr; simp [pctChange] at hr
  | cons a t ih =>
    cases t with
    | nil => intro _ _ r hr; simp [pctChange] at hr
    | cons b rest =>
      intro hp hch r hr
      obtain ⟨hab, hch2⟩ := List.chain'_cons.mp hch
      rcases List.mem_cons.mp hr with rfl | hr
      · have : (1 : ℚ) + (b / a - 1) = b / a := by ring
        rw [this]
        exact (one_le_div (hp a (List.mem_cons_self a (b :: rest)))).mpr (le_of_lt hab)
      · exact ih (fun x hx => hp x (List.mem_cons_of_mem a hx)) hch2 r hr

/-- Claim C4: the return series is return[i] = price[i+1]/price[i] - 1
with the anchoring first price dropped, the cumulative series is the
running product of (1 + return), the drawdown at each position divides
the cumulative return by the running maximum of the cumulative series
and subtracts 1, the max drawdown is the minimum over positions, and
prices [100, 120, 90, 130] give cumulative [1.2, 0.9, 1.3] with max
drawdown -0.25. -/
theorem C4_returns_cumulative_drawdown :
    (∀ (p : List ℚ) (i : Nat),
      (pctChange p)[i]? = (p[i]?).bind (fun a => (p[i + 1]?).map (fun b => b / a - 1)))
    ∧ (∀ p : List ℚ, (pctChange p).length = p.length - 1)
    ∧ (∀ (p : List ℚ) (i : Nat), i < (pctChange p).length →
        (cumulativeReturns p)[i]? =
          some ((((pctChange p).map (fun r => 1 + r)).take (i + 1)).prod))
    ∧ (∀ (p : List ℚ) (i : Nat), i < (cumulativeReturns p).length →
        (drawdownSeries p)[i]? = ((cumulativeReturns p)[i]?).bind (fun c =>
          (((cumulativeReturns p).take (i + 1)).max?).map (fun m => c / m - 1)))
    ∧ (∀ (l : List ℚ) (x : ℚ), seriesMin l = some x → x ∈ l ∧ ∀ y ∈ l, x ≤ y)
    ∧ calculate_metrics [100, 120, 90, 130] =
        ([mkRat 6 5, mkRat 9 10, mkRat 13 10], some (mkRat (-1) 4)) := by
  refine ⟨pctChange_getElem?, pctChange_length, ?_, ?_, seriesMin_spec,
    by with_unfolding_all decide⟩
  · intro p i h
    unfold cumulativeReturns cumprod
    rw [cumprodAux_getElem?]
    have hlt : i < ((pctChange p).map (fun r => 1 + r)).length := by simpa using h
    rw [if_pos hlt, one_mul]
  · intro p i h
    unfold drawdownSeries
    rw [List.getElem?_zipWith', cummax_getElem? _ i h]
    cases (cumulativeReturns p)[i]? <;> simp

/-- Witness for C4 at the dip series [100, 120, 90, 130]. -/
theorem C4_returns_cumulative_drawdown_witness :
    (cumulativeReturns [100, 120, 90, 130])[1]? = some (mkRat 9 10)
    ∧ (drawdownSeries [100, 120, 90, 130])[1]? = some (mkRat (-1) 4)
    ∧ mkRat (-1) 4 ∈ drawdownSeries [100, 120, 90, 130]
    ∧ ∀ y ∈ drawdownSeries [100, 120, 90, 130], mkRat (-1) 4 ≤ y := by
  obtain ⟨hmem, hmin⟩ := C4_returns_cumulative_drawdown.2.2.2.2.1
    (drawdownSeries [100, 120, 90, 130]) (mkRat (-1) 4) (by with_unfolding_all decide)
  refine ⟨?_, ?_, hmem, hmin⟩
  · rw [C4_returns_cumulative_drawdown.2.2.1 [100, 120, 90, 130] 1
      (by with_unfolding_all decide)]
    with_unfolding_all decide
  · rw [C4_returns_cumulative_drawdown.2.2.2.1 [100, 120, 90, 130] 1
      (by with_unfolding_all decide)]
    with_unfolding_all decide

/-- Claim C5 (amended): on a price series of strictly positive prices
every drawdown entry is nonpositive, and a strictly increasing positive
price series with at least two points has max drawdown exactly 0.
Without the positivity restriction the claim fails, see the
counterexample. -/
theorem C5_drawdown_nonpositive :
    (∀ p : List ℚ, (∀ x ∈ p, 0 < x) → ∀ d ∈ drawdownSeries p, d ≤ 0)
    ∧ (∀ p : List ℚ, (∀ x ∈ p, 0 < x) → p.Chain' (· < ·) → 2 ≤ p.length →
        (calculate_metrics p).2 = some 0) := by
  constructor
  · intro p hp d hd
    have hC := cumulativeReturns_all_pos p hp
    unfold drawdownSeries at hd
    cases hc : cumulativeReturns p with
    | nil => rw [hc] at hd; simp at hd
    | cons h t =>
      rw [hc] at hd hC
      simp only [cummax, List.zipWith_cons_cons] at hd
      rcases List.mem_cons.mp hd with rfl | hd
      · have hh : 0 < h := hC h (List.mem_cons_self h t)
        rw [div_self (ne_of_gt hh)]
        norm_num
      · exact zip_cummaxAux_nonpos t h (hC h (List.mem_cons_self h t))
          (fun z hz => hC z (List.mem_cons_of_mem h hz)) d hd
  · intro p hp hch hlen
    have hfac : ∀ x ∈ (pctChange p).map (fun r => 1 + r), 1 ≤ x := by
      intro x hx
      obtain ⟨r, hr, rfl⟩ := List.mem_map.mp hx
      exact pctChange_one_le_factor p hp hch r hr
    have hchain2 : (cumulativeReturns p).Chain' (· ≤ ·) :=
      chain_imp_chain_from_head (cumprodAux_chain _ 1 one_pos hfac)
    have hcum : cummax (cumulativeReturns p) = cumulativeReturns p :=
      cummax_eq_of_chain _ hchain2
    have hposC : ∀ x ∈ cumulativeReturns p, 0 < x := cumulativeReturns_all_pos p hp
    show seriesMin (drawdownSeries p) = some 0
    unfold drawdownSeries
    rw [hcum, zipWith_self_drawdown_zero _ hposC]
    apply seriesMin_replicate_zero
    have h1 : (cumulativeReturns p).length = p.length - 1 := by
      unfold cumulativeReturns cumprod
      rw [cumprodAux_length, List.length_map, pctChange_length]
    omega

/-- Counterexample to C5 as stated for every price series: with the
(negative) prices [1, -1, -2] the drawdown series contains the strictly
positive value 1. -/
theorem C5_counterexample_positive_drawdown :
    (1 : ℚ) ∈ drawdownSeries [1, -1, -2] ∧ ¬ ((1 : ℚ) ≤ 0) := by
  with_unfolding_all decide

/-- Witness for C5 at the strictly increasing series [100, 110, 121]. -/
theorem C5_drawdown_nonpositive_witness :
    (∀ d ∈ drawdownSeries [(100 : ℚ), 110, 121], d ≤ 0)
    ∧ (calculate_metrics [(100 : ℚ), 110, 121]).2 = some 0 := by
  constructor
  · exact C5_drawdown_nonpositive.1 [100, 110, 121] (by with_unfolding_all decide)
  · exact C5_drawdown_nonpositive.2 [100, 110, 121] (by with_unfolding_all decide)
      (List.chain'_cons.mpr ⟨by norm_num,
        List.chain'_cons.mpr ⟨by norm_num, List.chain'_singleton 121⟩⟩)
      (by with_unfolding_all decide)

/-- Split a character list at every dash, keeping the (possibly empty)
pieces between dashes. -/
def splitAtDashes : List Char → List (List Char)
  | [] => [[]]
  | c :: cs =>
    if c = '-' then [] :: splitAtDashes cs
    else
      match splitAtDashes cs with
      | [] => [[c]]
      | p :: ps => (c :: p) :: ps

/-- Day-first date parsing of one cell, modelling
`pd.to_datetime(..., dayfirst=True)` on the string dates of a DEGIRO
export (DD-MM-YYYY, dash- or slash-separated; the source comment notes
the DD-MM-YYYY layout): the first field is the day, the second the
month, the third the year; non-numeric fields or an out-of-range day or
month fail the cell. -/
def parseDateDayFirst (s : String) : Option (Nat × Nat × Nat) :=
  match splitAtDashes (s.data.map (fun c => if c = '/' then '-' else c)) with
  | [d, m, y] =>
    match digitsVal d, digitsVal m, digitsVal y with
    | some dv, some mv, some yv =>
      if 1 ≤ dv ∧ dv ≤ 31 ∧ 1 ≤ mv ∧ mv ≤ 12 then some (dv, mv, yv) else none
    | _, _, _ => none
  | _ => none

/-- `pd.to_datetime` over the whole Date column (source line 60).  The
call passes no `errors` argument, so pandas uses its default
`errors=raise`: one unparseable cell raises and aborts the whole
conversion, modelled as `Except.error`. -/
def parseDateColumn : List String → Except String (List (Nat × Nat × Nat))
  | [] => Except.ok []
  | c :: cs =>
    match parseDateDayFirst c with
    | none => Except.error ("Unknown datetime string format: " ++ c)
    | some d => (parseDateColumn cs).map (fun ds => d :: ds)

/-- Date conversion of one labelled column: only a textual column
labelled Date is converted; every other column passes through. -/
def parseDateEntry (lc : String × Column) : Except String (String × Column) :=
  if lc.1 = "Date" then
    match lc.2 with
    | Column.textual cells => (parseDateColumn cells).map (fun ds => (lc.1, Column.dates ds))
    | c => Except.ok (lc.1, c)
  else Except.ok lc

/-- Source lines 59-60: when a Date column is present it is converted
with `pd.to_datetime`; a cell failure propagates as an exception. -/
def parseDatesDf (df : Df) : Except String Df :=
  df.mapM parseDateEntry

/-- The file system seen by `pd.read_csv`: a path either resolves to a
loaded raw frame or does not resolve (raising FileNotFoundError). -/
abbrev FileSystem := String → Option Df

/-- The INPUT_FILE configuration constant (source line 12). -/
def INPUT_FILE : String := "data/Transactions.csv"

/-- `load_and_clean_data` (source lines 24-62): read the file — on
FileNotFoundError print a diagnostic and return None —, standardize the
column names, normalize the numeric columns, parse the Date column.
The result pairs the returned table (None on a missing file) with the
printed messages; an uncaught exception is `Except.error`. -/
def load_and_clean_data (fs : FileSystem) (filepath : String) :
    Except String (Option Df × List String) :=
  match fs filepath with
  | none => Except.ok (none,
      ["❌ Error: File not found at " ++ filepath ++ ". Please check the path."])
  | some df =>
    (parseDatesDf (fixNumericColumns (renameColumns df))).map (fun d => (some d, []))

/-- The guard of `main` (source lines 111-112): the pipeline continues
past loading only when a table was returned. -/
def mainContinues (r : Except String (Option Df × List String)) : Bool :=
  match r with
  | Except.ok (some _, _) => true
  | _ => false

/-- Claim C6: a path that does not resolve makes the loader return no
table together with a diagnostic message, without raising, and the
pipeline does not continue to any further stage. -/
theorem C6_file_not_found :
    ∀ (fs : FileSystem) (filepath : String), fs filepath = none →
      load_and_clean_data fs filepath =
        Except.ok (none,
          ["❌ Error: File not found at " ++ filepath ++ ". Please check the path."])
      ∧ mainContinues (load_and_clean_data fs filepath) = false := by
  intro fs filepath h
  have hl : load_and_clean_data fs filepath =
      Except.ok (none,
        ["❌ Error: File not found at " ++ filepath ++ ". Please check the path."]) := by
    unfold load_and_clean_data
    rw [h]
  exact ⟨hl, by rw [hl]; rfl⟩

/-- Witness for C6: the empty file system and the configured input
path. -/
theorem C6_file_not_found_witness :
    load_and_clean_data (fun _ => none) INPUT_FILE =
      Except.ok (none,
        ["❌ Error: File not found at " ++ INPUT_FILE ++ ". Please check the path."])
    ∧ mainContinues (load_and_clean_data (fun _ => none) INPUT_FILE) = false :=
  C6_file_not_found (fun _ => none) INPUT_FILE rfl

/-- Counterexample to C2 as stated: a table whose Date column holds one
malformed cell makes the load raise (`pd.to_datetime` defaults to
`errors=raise`), so the load does not survive a bad date cell with a
missing value. -/
theorem C2_counterexample_bad_date_raises :
    load_and_clean_data
      (fun p => if p = INPUT_FILE then some [("Date", Column.textual ["bogus"])] else none)
      INPUT_FILE = Except.error "Unknown datetime string format: bogus" := rfl

/-- Claim C2 (amended): every Date value is parsed day-first
(day/month/year ordering); a column whose cells all parse yields their
day-first dates in order, but a single malformed cell makes the whole
conversion — and with it the load — raise an error instead of producing
a missing date for that row. -/
theorem C2_dayfirst_and_raise_on_bad_date :
    parseDateDayFirst "05-01-2023" = some (5, 1, 2023)
    ∧ parseDateDayFirst "31/12/2023" = some (31, 12, 2023)
    ∧ (∀ (cells : List String) (ds : List (Nat × Nat × Nat)),
        parseDateColumn cells = Except.ok ds → cells.map parseDateDayFirst = ds.map some)
    ∧ (∀ (cells : List String) (c : String), c ∈ cells → parseDateDayFirst c = none →
        ∃ e, parseDateColumn cells = Except.error e)
    ∧ (∀ (fs : FileSystem) (path : String) (df : Df) (e : String), fs path = some df →
        parseDatesDf (fixNumericColumns (renameColumns df)) = Except.error e →
        load_and_clean_data fs path = Except.error e) := by
  refine ⟨by decide, by decide, ?_, ?_, ?_⟩
  · intro cells
    induction cells with
    | nil =>
      intro ds h
      simp only [parseDateColumn] at h
      cases h
      rfl
    | cons c cs ih =>
      intro ds h
      simp only [parseDateColumn] at h
      cases hp : parseDateDayFirst c with
      | none => rw [hp] at h; cases h
      | some d =>
        rw [hp] at h
        cases hrec : parseDateColumn cs with
        | error e => rw [hrec] at h; cases h
        | ok ds2 =>
          rw [hrec] at h
          cases h
          simp only [List.map_cons, hp]
          rw [ih ds2 hrec]
  · intro cells c hc hnone
    induction cells with
    | nil => simp at hc
    | cons x xs ih =>
      cases hp : parseDateDayFirst x with
      | none =>
        exact ⟨"Unknown datetime string format: " ++ x, by simp only [parseDateColumn, hp]⟩
      | some d =>
        rcases List.mem_cons.mp hc with rfl | hc2
        · rw [hp] at hnone; cases hnone
        · obtain ⟨e, he⟩ := ih hc2
          exact ⟨e, by simp only [parseDateColumn, hp, he, Except.map]⟩
  · intro fs path df e hfs herr
    unfold load_and_clean_data
    rw [hfs]
    show Except.map (fun d => (some d, ([] : List String)))
      (parseDatesDf (fixNumericColumns (renameColumns df))) = Except.error e
    rw [herr]
    rfl

/-- Witness for the amended C2 at a fully parseable column, a column
with a bad cell, and a concrete file system. -/
theorem C2_dayfirst_and_raise_on_bad_date_witness :
    (["05-01-2023", "31/12/2023"].map parseDateDayFirst =
      [(5, 1, 2023), (31, 12, 2023)].map some)
    ∧ (∃ e, parseDateColumn ["05-01-2023", "bogus"] = Except.error e)
    ∧ load_and_clean_data
        (fun p => if p = INPUT_FILE then some [("Date", Column.textual ["05-01-2023", "bogus"])] else none)
        INPUT_FILE = Except.error "Unknown datetime string format: bogus" := by
  refine ⟨?_, ?_, ?_⟩
  · exact C2_dayfirst_and_raise_on_bad_date.2.2.1 ["05-01-2023", "31/12/2023"]
      [(5, 1, 2023), (31, 12, 2023)] rfl
  · exact C2_dayfirst_and_raise_on_bad_date.2.2.2.1 ["05-01-2023", "bogus"] "bogus"
      (by decide) (by decide)
  · exact C2_dayfirst_and_raise_on_bad_date.2.2.2.2
      (fun p => if p = INPUT_FILE then some [("Date", Column.textual ["05-01-2023", "bogus"])] else none)
      INPUT_FILE [("Date", Column.textual ["05-01-2023", "bogus"])]
      "Unknown datetime string format: bogus" rfl rfl
